import Mathlib

/-!
# ChatWithDocs-API: verification of the ingestion/retrieval core

A shallow embedding of the document ingestion and retrieval pipeline of the
ChatWithDocs-API repository, together with proofs about it.

Python strings are modelled as Lean `String` (a list of characters); Python
`str.lower()` is modelled per-character on the Basic Latin range, which agrees
with CPython on every character that can survive the sanitizers' character
filters.  Machine integers (`user_id`, `document_id`, `chunk_index`) are
nonnegative database keys and are modelled as `Nat`; Python's decimal
rendering `str(n)` of such an integer is modelled by an explicit decimal
printer `pyStr`.  External collaborators (the vector database, the embedding
service, S3, the SQLAlchemy session) are modelled as explicit state that the
embedded functions read and return.
-/

/-- Decimal digit character for `n < 10` (codepoint `48 + n`). -/
def decDigitChar (n : Nat) : Char := Char.ofNat (48 + n)

/-- Fuel-driven core of the decimal printer: with `n < fuel` it produces the
decimal digit list of `n`, most significant digit first. -/
def decDigitsF (fuel n : Nat) : List Char :=
  match fuel with
  | 0 => []
  | f + 1 =>
    if n < 10 then [decDigitChar n]
    else decDigitsF f (n / 10) ++ [decDigitChar (n % 10)]

/-- Decimal digit list of a natural number, most significant digit first;
models CPython's `str(n)` for a nonnegative `int`. -/
def decDigits (n : Nat) : List Char := decDigitsF (n + 1) n

/-- Python `str(n)` for a nonnegative integer `n`. -/
def pyStr (n : Nat) : String := ⟨decDigits n⟩

/-- Python slice `s[:k]` for an `int` bound `k` (a negative bound counts from
the end of the string, clamped at zero). -/
def pySliceTo (s : String) (k : Int) : String :=
  if k < 0 then ⟨s.data.take (s.data.length - (-k).toNat)⟩
  else ⟨s.data.take k.toNat⟩

/-- The character class `[a-z0-9-]` kept by
`re.sub(r'[^a-z0-9-]', '', name)` in `PineconeIndexer.sanitize_index_name`. -/
def isIndexChar (c : Char) : Bool :=
  (97 ≤ c.toNat && c.toNat ≤ 122) || (48 ≤ c.toNat && c.toNat ≤ 57) ||
    (c.toNat == 45)

/-- The character class `[a-zA-Z0-9_-]` preserved by
`re.sub(r'[^a-zA-Z0-9_-]', '_', namespace)` in
`PineconeIndexer.sanitize_namespace`. -/
def isNamespaceChar (c : Char) : Bool :=
  (97 ≤ c.toNat && c.toNat ≤ 122) || (65 ≤ c.toNat && c.toNat ≤ 90) ||
    (48 ≤ c.toNat && c.toNat ≤ 57) || (c.toNat == 45) || (c.toNat == 95)

/-- Python `str.isalnum()` restricted to the Basic Latin range (the only
characters present at its call site inside `sanitize_index_name`, where the
input has already been filtered to `[a-z0-9-]`). -/
def pyIsAlnum (c : Char) : Bool :=
  (97 ≤ c.toNat && c.toNat ≤ 122) || (65 ≤ c.toNat && c.toNat ≤ 90) ||
    (48 ≤ c.toNat && c.toNat ≤ 57)

/-- `re.sub(r'-+', '-', s)`: every maximal run of hyphens is collapsed to a
single hyphen (of two adjacent hyphens, the first is dropped). -/
def squeezeDashes : List Char → List Char
  | [] => []
  | [c] => [c]
  | c1 :: c2 :: rest =>
    if c1 = '-' ∧ c2 = '-' then squeezeDashes (c2 :: rest)
    else c1 :: squeezeDashes (c2 :: rest)

/-- `if sanitized and not sanitized[0].isalnum(): sanitized = 'p' + sanitized[1:]`
from `sanitize_index_name`. -/
def fixLeadingChar : List Char → List Char
  | [] => []
  | c :: rest => if pyIsAlnum c then c :: rest else 'p' :: rest

/-- `PineconeIndexer.sanitize_index_name` (src/ingestion/pinecone_indexer.py):
lowercase, strip characters outside `[a-z0-9-]`, collapse hyphen runs, force an
alphanumeric first character, pad short names with `idx-`, clip to 45
characters. -/
def sanitize_index_name (name : String) : String :=
  let lowered := name.data.map Char.toLower
  let stripped := lowered.filter isIndexChar
  let collapsed := squeezeDashes stripped
  let fronted := fixLeadingChar collapsed
  let padded :=
    if fronted.length < 3 then 'i' :: 'd' :: 'x' :: '-' :: fronted else fronted
  let clipped := if padded.length > 45 then padded.take 45 else padded
  ⟨clipped⟩

/-- `PineconeIndexer.sanitize_namespace` (src/ingestion/pinecone_indexer.py):
replace characters outside `[a-zA-Z0-9_-]` by `_`, clip to 64 characters. -/
def sanitize_namespace (ns : String) : String :=
  let replaced := ns.data.map (fun c => if isNamespaceChar c then c else '_')
  let clipped := if replaced.length > 64 then replaced.take 64 else replaced
  ⟨clipped⟩

/-- The raw (pre-sanitization) namespace built by
`DocumentIngestor.ingest_document`: `f"{document.user_id}-{document.thread_id}"`,
with the thread-id portion truncated whenever the combined string exceeds 64
characters. -/
def ingestionRawNamespace (user_id : Nat) (thread_id : String) : String :=
  let ns := pyStr user_id ++ "-" ++ thread_id
  if ns.length > 64 then
    let user_id_len := (pyStr user_id).length
    let thread_id_max_len : Int := 64 - user_id_len - 1
    pyStr user_id ++ "-" ++ pySliceTo thread_id thread_id_max_len
  else ns

/-- The `(index_name, namespace)` pair that `DocumentIngestor.ingest_document`
resolves and indexes under: the fixed application index name passed through
`ensure_index_exists` (which returns `sanitize_index_name(index_name)`), and
the raw namespace passed through `sanitize_namespace`. -/
def ingestionResolve (user_id : Nat) (thread_id : String) : String × String :=
  (sanitize_index_name "chatwithdocs",
    sanitize_namespace (ingestionRawNamespace user_id thread_id))

/-- The raw namespace built by `PineconeUtils.retrieve_documents`
(src/retrieval/pinecone_utils.py): `f"{user_id}-{thread_id}"` with the same
64-character truncation as ingestion. -/
def retrievalRawNamespace (user_id : Nat) (thread_id : String) : String :=
  let ns := pyStr user_id ++ "-" ++ thread_id
  if ns.length > 64 then
    let user_id_len := (pyStr user_id).length
    let thread_id_max_len : Int := 64 - user_id_len - 1
    pyStr user_id ++ "-" ++ pySliceTo thread_id thread_id_max_len
  else ns

/-- The `(index_name, namespace)` pair that `PineconeUtils.retrieve_documents`
queries: the fixed index name used verbatim, and the raw namespace used
verbatim — `retrieve_documents` never calls `sanitize_namespace`. -/
def retrievalResolve (user_id : Nat) (thread_id : String) : String × String :=
  ("chatwithdocs", retrievalRawNamespace user_id thread_id)

/-- `DocumentProcessor._extract_from_pdf` (src/ingestion/document_processor.py):
starting from the empty string, append each page's extracted text followed by
`"\n\n"`, in page order.  The external PyPDF2 page extraction is modelled by
the list of per-page extracted strings (an image-only page contributes `""`). -/
def extract_from_pdf (pages : List String) : String :=
  pages.foldl (fun text page => text ++ page ++ "\n\n") ""

/-- One chunk produced by `DocumentProcessor.create_chunks`: the fragment text
plus the `chunk_index`/`chunk_total` entries the repo code adds to its
metadata.  (The rest of the merged metadata dictionary is carried through the
pipeline unchanged and no claim mentions it, so it is not represented.) -/
structure Chunk where
  content : String
  chunkIndex : Nat
  chunkTotal : Nat
deriving DecidableEq, Repr

/-- `DocumentProcessor.create_chunks`: the text splitter (an external library)
returns the fragment list `pieces`; the repository code enumerates it,
attaching `chunk_index := i` (0-based position) and `chunk_total`. -/
def create_chunks (pieces : List String) : List Chunk :=
  pieces.enum.map fun p => ⟨p.2, p.1, pieces.length⟩

/-- `DOCUMENT_STATUS` from src/ingestion/config.py. -/
inductive DocStatus
  | pending
  | processing
  | completed
  | failed
deriving DecidableEq, Repr

/-- One `DocumentChunk` row (src/api/database/models.py) as written by
`ingest_document`: owning document id, `chunk_index`, `content`, `vector_id`.
(The row's `chunk_metadata` JSON blob is not referenced by any claim and is
omitted.) -/
structure ChunkRow where
  document_id : Nat
  chunk_index : Nat
  content : String
  vector_id : String
deriving DecidableEq, Repr

/-- The committed relational state of one document: its `index_status` and
`is_processed` columns, the `DocumentChunk` table, and the recognised
`doc_metadata` keys (`pinecone_index`, `pinecone_namespace`,
`indexing_progress`, `chunks_indexed`, `total_chunks`, `error`); `meta_other`
carries caller-supplied custom metadata, which no pipeline operation writes. -/
structure DocState where
  index_status : DocStatus
  is_processed : Bool
  rows : List ChunkRow
  meta_pinecone_index : Option String
  meta_pinecone_namespace : Option String
  meta_indexing_progress : Option Nat
  meta_chunks_indexed : Option Nat
  meta_total_chunks : Option Nat
  meta_error : Option String
  meta_other : List (String × String)
deriving DecidableEq, Repr

/-- `BATCH_SIZE` from `DocumentIngestor.ingest_document`. -/
def BATCH_SIZE : Nat := 10

/-- The deterministic vector id
`f"{sanitized_namespace}_{meta['document_id']}_{meta['chunk_index']}"`
computed per chunk in `ingest_document` (where `meta['document_id']` is
`str(document.id)`). -/
def vectorId (ns : String) (document_id chunk_index : Nat) : String :=
  ns ++ "_" ++ pyStr document_id ++ "_" ++ pyStr chunk_index

/-- One iteration of the batch loop of `ingest_document`, as seen by the
relational store: after the Pinecone upsert of the batch succeeds, a
`DocumentChunk` row per chunk is added and committed, then
`indexing_progress`/`chunks_indexed`/`total_chunks` are updated in
`doc_metadata` and committed.  `done` is the loop variable `i` (chunks
handled before this batch); the progress percentage
`int((i + len(batch)) / total * 100)` is modelled by natural floor division
(the float value is not referenced by any claim). -/
def chunkRowOf (ns : String) (docId : Nat) (c : Chunk) : ChunkRow :=
  { document_id := docId, chunk_index := c.chunkIndex, content := c.content,
    vector_id := vectorId ns docId c.chunkIndex }

def processBatch (ns : String) (docId total done : Nat) (st : DocState)
    (batch : List Chunk) : DocState :=
  let st1 := { st with rows := st.rows ++ batch.map (chunkRowOf ns docId) }
  let newDone := done + batch.length
  { st1 with
    meta_indexing_progress := some (min 100 (newDone * 100 / total)),
    meta_chunks_indexed := some newDone,
    meta_total_chunks := some total }

/-- The committed relational state after the batch loop of `ingest_document`
has completed `k` iterations over the (remaining) chunk list — the state an
interruption after the `k`-th batch commit leaves behind.  Mirrors
`for i in range(0, total_chunks, BATCH_SIZE)` with `batch = chunks[i:i+10]`. -/
def runBatchesK (ns : String) (docId total : Nat) :
    Nat → Nat → DocState → List Chunk → DocState
  | 0, _, st, _ => st
  | _ + 1, _, st, [] => st
  | k + 1, done, st, chunks@(_ :: _) =>
    let batch := chunks.take BATCH_SIZE
    runBatchesK ns docId total k (done + batch.length)
      (processBatch ns docId total done st batch) (chunks.drop BATCH_SIZE)

/-- Environment of one `ingest_document` run: whether the conversation row
exists, the outcome of `processor.process_document` (the list of split
fragments, or the exception it raised), the outcome of `ensure_index_exists`,
and the outcome of the Pinecone upsert for each batch index (`none` =
success). -/
structure IngestEnv where
  conversation_exists : Bool
  process_result : Except String (List String)
  ensure_index_error : Option String
  upsert_error : Nat → Option String

/-- The full batch loop of `ingest_document` with fallible upserts: runs batch
by batch (fuel-driven; fuel at least the chunk count makes it total), stopping
with the raised error message if the upsert of some batch fails, in which case
the states committed by earlier iterations remain. -/
def ingestLoopF (upsertErr : Nat → Option String) (ns : String)
    (docId total : Nat) :
    Nat → Nat → Nat → DocState → List Chunk → DocState × Option String
  | 0, _, _, st, _ => (st, none)
  | _ + 1, _, _, st, [] => (st, none)
  | f + 1, bi, done, st, chunks@(_ :: _) =>
    let batch := chunks.take BATCH_SIZE
    match upsertErr bi with
    | some e => (st, some e)
    | none =>
      ingestLoopF upsertErr ns docId total f (bi + 1) (done + batch.length)
        (processBatch ns docId total done st batch) (chunks.drop BATCH_SIZE)

/-- Result dictionary returned by a successful `ingest_document` run. -/
structure IngestResult where
  document_id : Nat
  chunks_processed : Nat
  index_name : String
  ns : String
deriving DecidableEq, Repr

/-- The single `except` block of `ingest_document`: on any raised error the
failing document state gets `index_status = failed` and the error message
written into `doc_metadata["error"]`, the change is committed, and the
exception is re-raised to the caller. -/
def ingestFail (st : DocState) (e : String) :
    DocState × Except String IngestResult :=
  ({ st with index_status := .failed, meta_error := some e }, .error e)

/-- `DocumentIngestor.ingest_document` (src/ingestion/ingestor.py) for a
document that exists, as a function of the run's environment.  The first
component of the result is the committed relational state of the document when
the call returns (or re-raises); the second is the returned value or the
re-raised exception's message. -/
def ingest_document (env : IngestEnv) (docId userId : Nat) (threadId : String)
    (doc0 : DocState) : DocState × Except String IngestResult :=
  let doc1 : DocState := { doc0 with index_status := .processing }
  if ¬ env.conversation_exists then
    ingestFail doc1 "Conversa não encontrada"
  else
    match env.process_result with
    | .error e => ingestFail doc1 e
    | .ok pieces =>
      let chunks := create_chunks pieces
      match env.ensure_index_error with
      | some e => ingestFail doc1 e
      | none =>
        let sanitized_index := sanitize_index_name "chatwithdocs"
        let sanitized_namespace :=
          sanitize_namespace (ingestionRawNamespace userId threadId)
        let total := chunks.length
        match ingestLoopF env.upsert_error sanitized_namespace docId total
            chunks.length 0 0 doc1 chunks with
        | (st, some e) => ingestFail st e
        | (st, none) =>
          ({ st with
              is_processed := true,
              index_status := .completed,
              meta_pinecone_index := some sanitized_index,
              meta_pinecone_namespace := some sanitized_namespace,
              meta_indexing_progress := some 100,
              meta_chunks_indexed := some total,
              meta_total_chunks := some total },
            .ok ⟨docId, total, sanitized_index, sanitized_namespace⟩)

/-- One fragment returned by the vector store's similarity search. -/
structure Fragment where
  content : String
  source : String
deriving DecidableEq, Repr

/-- The vector backend as seen by `PineconeUtils.retrieve_documents`: the
result of `list_indexes()` and the similarity search
(index name, namespace, query, `top_k` → ranked fragments). -/
structure VectorBackend where
  indexes : List String
  search : String → String → String → Nat → List Fragment

/-- `PineconeUtils.retrieve_documents` (src/retrieval/pinecone_utils.py): the
returned fragment list, or the message of the `ValueError` the function
raises. -/
def retrieve_documents (be : VectorBackend) (query : String) (top_k : Nat)
    (thread_id : Option String) (user_id : Option Nat) :
    Except String (List Fragment) :=
  match user_id with
  | none => .error "user_id é obrigatório para recuperar documentos"
  | some uid =>
    match thread_id with
    | none => .error "thread_id é obrigatório para recuperar documentos"
    | some tid =>
      let index_name := "chatwithdocs"
      let ns := retrievalRawNamespace uid tid
      if index_name ∈ be.indexes then
        .ok (be.search index_name ns query top_k)
      else .error ("Índice " ++ index_name ++ " não encontrado")

/-- The raw namespace recomputed inline by
`DocumentIngestor.delete_document_from_index` when the document's metadata
holds no stored index/namespace (textually the same derivation as in
`ingest_document`). -/
def deletionRawNamespace (user_id : Nat) (thread_id : String) : String :=
  let ns := pyStr user_id ++ "-" ++ thread_id
  if ns.length > 64 then
    let user_id_len := (pyStr user_id).length
    let thread_id_max_len : Int := 64 - user_id_len - 1
    pyStr user_id ++ "-" ++ pySliceTo thread_id thread_id_max_len
  else ns

/-- The `(pinecone_index, pinecone_namespace)` pair
`delete_document_from_index` targets: the values stored in `doc_metadata` when
both are present and non-empty (Python truthiness), otherwise the recomputed
default scheme. -/
def deletionResolvedPair (userId : Nat) (threadId : String) (st : DocState) :
    String × String :=
  let stored_index := st.meta_pinecone_index.getD ""
  let stored_ns := st.meta_pinecone_namespace.getD ""
  if stored_index = "" ∨ stored_ns = "" then
    ("chatwithdocs",
      sanitize_namespace (deletionRawNamespace userId threadId))
  else (stored_index, stored_ns)

/-- Environment of one `delete_document_from_index` run: the outcome of
`pc.list_indexes()` (`none` = the listing call raised, which the code logs and
survives), whether the two Pinecone deletion calls succeed, and the outcome of
the final relational commit (`none` = success). -/
structure DeleteEnv where
  list_indexes : Option (List String)
  delete_by_ids_ok : Bool
  delete_by_filter_ok : Bool
  commit_error : Option String

/-- Result dictionary of `delete_document_from_index`; absent dictionary keys
are `none`. -/
structure DeleteResult where
  status : String
  document_id : Nat
  chunks_removed : Option Nat
  message : Option String
  chunks_removed_by_id : Option Nat
  removed_by_filter : Option Bool
  pinecone_index : Option String
  pinecone_namespace : Option String
  total_chunks : Option Nat
  error : Option String
deriving DecidableEq, Repr

/-- `DocumentIngestor.delete_document_from_index` (src/ingestion/ingestor.py)
for a document that exists.  Returns the committed relational state and the
result dictionary; the function never re-raises (a relational failure rolls
back and reports `status = "error"`). -/
def delete_document_from_index (env : DeleteEnv) (docId userId : Nat)
    (threadId : String) (st : DocState) : DocState × DeleteResult :=
  let base : DeleteResult :=
    { status := "success", document_id := docId, chunks_removed := some 0,
      message := none, chunks_removed_by_id := none, removed_by_filter := none,
      pinecone_index := none, pinecone_namespace := none, total_chunks := none,
      error := none }
  let pair := deletionResolvedPair userId threadId st
  let shortCircuit : Bool :=
    match env.list_indexes with
    | some existing => ! existing.contains pair.1
    | none => false
  if shortCircuit then
    (st, { status := "warning", document_id := docId, chunks_removed := none,
           message := some ("Índice " ++ pair.1 ++ " não encontrado"),
           chunks_removed_by_id := none, removed_by_filter := none,
           pinecone_index := none, pinecone_namespace := none,
           total_chunks := none, error := none })
  else
    let chunks := st.rows.filter (fun r => r.document_id == docId)
    let chunk_count := chunks.length
    let chunk_ids := (chunks.map (fun r => r.vector_id)).filter (· ≠ "")
    let r1 :=
      if chunk_ids ≠ [] ∧ env.delete_by_ids_ok then
        { base with chunks_removed_by_id := some chunk_ids.length }
      else base
    let r2 := { r1 with removed_by_filter := some env.delete_by_filter_ok }
    match env.commit_error with
    | none =>
      ({ st with
          is_processed := false,
          index_status := .pending,
          meta_pinecone_index := none,
          meta_pinecone_namespace := none,
          meta_indexing_progress := none,
          meta_chunks_indexed := none,
          meta_total_chunks := none },
        { r2 with
            pinecone_index := some pair.1,
            pinecone_namespace := some pair.2,
            total_chunks := some chunk_count })
    | some e =>
      (st, { status := "error", document_id := docId, chunks_removed := none,
             message := none, chunks_removed_by_id := none,
             removed_by_filter := none, pinecone_index := none,
             pinecone_namespace := none, total_chunks := none,
             error := some e })

/-- One document row of a conversation, as read by
`_delete_conversation_internal`. -/
structure ConvDocument where
  id : Nat
  s3_path : String
  is_processed : Bool
deriving DecidableEq, Repr

/-- The external side effects issued by `_delete_conversation_internal`
(src/api/routers/conversation.py), in program order. -/
inductive TeardownEvent
  | s3_delete (path : String)
  | pinecone_doc_delete (document_id : Nat)
  | pinecone_namespace_delete (index ns : String)
  | db_delete_conversation
deriving DecidableEq, Repr

/-- `_delete_conversation_internal` as its ordered trace of side effects: per
member document an S3 delete and, if the document `is_processed`, a
per-document Pinecone cleanup via the ingestor; then — when any member
document is processed — one `delete_namespace(sanitized_index,
sanitized_namespace)` sweep targeting `index_name = f"user{user.id}"` and
`namespace = thread_id`; finally the cascading relational delete. -/
def delete_conversation_events (userId : Nat) (threadId : String)
    (docs : List ConvDocument) : List TeardownEvent :=
  (docs.map fun d =>
    TeardownEvent.s3_delete d.s3_path ::
      (if d.is_processed then [TeardownEvent.pinecone_doc_delete d.id]
       else [])).flatten
  ++ (if docs.any (fun d => d.is_processed) then
        [TeardownEvent.pinecone_namespace_delete
          (sanitize_index_name ("user" ++ pyStr userId))
          (sanitize_namespace threadId)]
      else [])
  ++ [TeardownEvent.db_delete_conversation]

/-- Recogniser for the namespace-sweep event. -/
def isNamespaceSweep : TeardownEvent → Bool
  | .pinecone_namespace_delete _ _ => true
  | _ => false

/-- Decimal reading of a digit list (verification helper used to invert the
decimal printer). -/
def decVal (l : List Char) : Nat :=
  l.foldl (fun a c => 10 * a + (c.toNat - 48)) 0

/-- Lowercase-alphanumeric character class `[a-z0-9]` (verification helper:
the first character of the pattern `[a-z0-9][a-z0-9-]*`). -/
def isLowerAlnumChar (c : Char) : Bool :=
  (97 ≤ c.toNat && c.toNat ≤ 122) || (48 ≤ c.toNat && c.toNat ≤ 57)

/-- Matcher for the full-string regex `[a-z0-9][a-z0-9-]*` (verification
helper). -/
def idxPattern : List Char → Bool
  | [] => false
  | c :: rest => isLowerAlnumChar c && rest.all isIndexChar

/-- `true` iff the list has no two adjacent hyphens (verification helper
describing the output of `squeezeDashes`). -/
def noDoubleDash : List Char → Bool
  | [] => true
  | [_] => true
  | c1 :: c2 :: rest => !(c1 == '-' && c2 == '-') && noDoubleDash (c2 :: rest)

/-- Number of iterations of the batch loop of `ingest_document` over `total`
chunks: `(total + BATCH_SIZE - 1) // BATCH_SIZE`. -/
def numBatches (total : Nat) : Nat := (total + BATCH_SIZE - 1) / BATCH_SIZE

example : sanitize_index_name "Chat With Docs!" = "chatwithdocs" := by decide
example : sanitize_index_name "--a" = "idx-pa" := by decide
example : sanitize_index_name "" = "idx-" := by decide
example : sanitize_namespace "1-a.b" = "1-a_b" := by decide
example : pyStr 105 = "105" := by decide
example : ingestionResolve 1 "a.b" = ("chatwithdocs", "1-a_b") := by decide
example : retrievalResolve 1 "a.b" = ("chatwithdocs", "1-a.b") := by decide

/-! ## Properties of the decimal printer -/

theorem decDigitChar_toNat {n : Nat} (h : n < 10) :
    (decDigitChar n).toNat = 48 + n := by
  interval_cases n <;> decide

theorem decDigitsF_foldl (fuel : Nat) : ∀ n a, n < fuel →
    (decDigitsF fuel n).foldl (fun a c => 10 * a + (c.toNat - 48)) a =
      a * 10 ^ (decDigitsF fuel n).length + n := by
  induction fuel with
  | zero => intro n a h; omega
  | succ f ih =>
    intro n a h
    by_cases h10 : n < 10
    · simp [decDigitsF, h10, decDigitChar_toNat h10, Nat.mul_comm]
    · have hmod : n % 10 < 10 := Nat.mod_lt _ (by omega)
      have hrec : n / 10 < f := by omega
      simp only [decDigitsF, if_neg h10, List.foldl_append, List.foldl_cons,
        List.foldl_nil, List.length_append, List.length_cons, List.length_nil,
        decDigitChar_toNat hmod]
      rw [ih _ _ hrec]
      have : 10 * (n / 10) + n % 10 = n := Nat.div_add_mod n 10
      rw [pow_succ]
      ring_nf
      omega

theorem decVal_decDigits (n : Nat) : decVal (decDigits n) = n := by
  have := decDigitsF_foldl (n + 1) n 0 (by omega)
  simpa [decVal, decDigits] using this

theorem decDigits_injective : Function.Injective decDigits := by
  intro m n h
  have := decVal_decDigits m
  rw [h, decVal_decDigits] at this
  omega

theorem pyStr_injective : Function.Injective pyStr := by
  intro m n h
  exact decDigits_injective (congrArg String.data h)

/-! ## Character-class facts -/

theorem toLower_eq_self {c : Char} (h : ¬ (65 ≤ c.toNat ∧ c.toNat ≤ 90)) :
    c.toLower = c := by
  simp only [Char.toLower]
  rw [if_neg h]

theorem isIndexChar_ranges {c : Char} (h : isIndexChar c = true) :
    (97 ≤ c.toNat ∧ c.toNat ≤ 122) ∨ (48 ≤ c.toNat ∧ c.toNat ≤ 57) ∨
      c.toNat = 45 := by
  simp only [isIndexChar, Bool.or_eq_true, Bool.and_eq_true,
    decide_eq_true_eq, beq_iff_eq] at h
  tauto

theorem toLower_eq_self_of_isIndexChar {c : Char} (h : isIndexChar c = true) :
    c.toLower = c := by
  rcases isIndexChar_ranges h with h' | h' | h' <;>
    exact toLower_eq_self (by omega)

theorem map_eq_self_of_mem {f : Char → Char} :
    ∀ {l : List Char}, (∀ c ∈ l, f c = c) → l.map f = l
  | [], _ => rfl
  | c :: rest, h => by
    simp only [List.map_cons, h c (by simp)]
    rw [map_eq_self_of_mem fun d hd => h d (by simp [hd])]

/-! ## Properties of `squeezeDashes` and `fixLeadingChar` -/

theorem squeezeDashes_head (rest : List Char) : ∀ c : Char,
    ∃ t, squeezeDashes (c :: rest) = c :: t := by
  induction rest with
  | nil => intro c; exact ⟨[], rfl⟩
  | cons a rest' ih =>
    intro c
    by_cases h : c = '-' ∧ a = '-'
    · obtain ⟨t, ht⟩ := ih a
      exact ⟨t, by rw [squeezeDashes, if_pos h, ht, h.1, h.2]⟩
    · exact ⟨squeezeDashes (a :: rest'), by rw [squeezeDashes, if_neg h]⟩

theorem noDoubleDash_tail {c : Char} {rest : List Char}
    (h : noDoubleDash (c :: rest) = true) : noDoubleDash rest = true := by
  cases rest with
  | nil => rfl
  | cons c2 r =>
    simp only [noDoubleDash, Bool.and_eq_true] at h
    exact h.2

theorem noDoubleDash_squeezeDashes : ∀ l : List Char,
    noDoubleDash (squeezeDashes l) = true
  | [] => rfl
  | [c] => rfl
  | c1 :: c2 :: rest => by
    by_cases h : c1 = '-' ∧ c2 = '-'
    · rw [squeezeDashes, if_pos h]
      exact noDoubleDash_squeezeDashes (c2 :: rest)
    · rw [squeezeDashes, if_neg h]
      obtain ⟨t, ht⟩ := squeezeDashes_head rest c2
      rw [ht]
      have hrec := noDoubleDash_squeezeDashes (c2 :: rest)
      rw [ht] at hrec
      simp only [noDoubleDash, Bool.and_eq_true]
      constructor
      · simp only [Bool.not_and, Bool.or_eq_true, Bool.not_eq_true']
        by_cases h1 : c1 = '-'
        · right
          by_cases h2 : c2 = '-'
          · exact absurd ⟨h1, h2⟩ h
          · simpa using h2
        · left
          simpa using h1
      · exact hrec

theorem squeezeDashes_eq_self : ∀ {l : List Char},
    noDoubleDash l = true → squeezeDashes l = l
  | [], _ => rfl
  | [c], _ => rfl
  | c1 :: c2 :: rest, h => by
    simp only [noDoubleDash, Bool.and_eq_true] at h
    have hne : ¬ (c1 = '-' ∧ c2 = '-') := by
      rcases h with ⟨hp, -⟩
      intro ⟨h1, h2⟩
      simp [h1, h2] at hp
    rw [squeezeDashes, if_neg hne,
      squeezeDashes_eq_self (noDoubleDash_tail (c := c1) (by
        simp only [noDoubleDash, Bool.and_eq_true]; exact h))]

theorem mem_squeezeDashes : ∀ {l : List Char} {c : Char},
    c ∈ squeezeDashes l → c ∈ l
  | [], _, h => by simp [squeezeDashes] at h
  | [d], c, h => by simpa [squeezeDashes] using h
  | c1 :: c2 :: rest, c, h => by
    by_cases hd : c1 = '-' ∧ c2 = '-'
    · rw [squeezeDashes, if_pos hd] at h
      exact List.mem_cons_of_mem _ (mem_squeezeDashes h)
    · rw [squeezeDashes, if_neg hd] at h
      rcases List.mem_cons.mp h with h1 | h2
      · exact h1 ▸ List.mem_cons_self _ _
      · exact List.mem_cons_of_mem _ (mem_squeezeDashes h2)

theorem mem_fixLeadingChar {l : List Char} {c : Char}
    (h : c ∈ fixLeadingChar l) : c ∈ l ∨ c = 'p' := by
  cases l with
  | nil => simp [fixLeadingChar] at h
  | cons d rest =>
    by_cases hd : pyIsAlnum d
    · rw [fixLeadingChar, if_pos hd] at h
      exact Or.inl h
    · rw [fixLeadingChar, if_neg hd] at h
      rcases List.mem_cons.mp h with h1 | h2
      · exact Or.inr h1
      · exact Or.inl (List.mem_cons_of_mem _ h2)

theorem fixLeadingChar_head : ∀ {l : List Char}, l ≠ [] →
    ∃ c t, fixLeadingChar l = c :: t ∧ pyIsAlnum c = true ∧
      (c ∈ l ∨ c = 'p') ∧ t = l.tail := by
  intro l hl
  cases l with
  | nil => exact absurd rfl hl
  | cons d rest =>
    by_cases hd : pyIsAlnum d
    · exact ⟨d, rest, by rw [fixLeadingChar, if_pos hd], hd, Or.inl (by simp),
        rfl⟩
    · exact ⟨'p', rest, by rw [fixLeadingChar, if_neg hd], by decide,
        Or.inr rfl, rfl⟩

theorem noDoubleDash_fixLeadingChar {l : List Char}
    (h : noDoubleDash l = true) : noDoubleDash (fixLeadingChar l) = true := by
  cases l with
  | nil => rfl
  | cons d rest =>
    by_cases hd : pyIsAlnum d
    · rwa [fixLeadingChar, if_pos hd]
    · rw [fixLeadingChar, if_neg hd]
      cases rest with
      | nil => rfl
      | cons c2 r =>
        simp only [noDoubleDash, Bool.and_eq_true] at h ⊢
        exact ⟨by simp, h.2⟩

theorem fixLeadingChar_eq_self {l : List Char}
    (h : l = [] ∨ ∃ c t, l = c :: t ∧ pyIsAlnum c = true) :
    fixLeadingChar l = l := by
  rcases h with rfl | ⟨c, t, rfl, hc⟩
  · rfl
  · rw [fixLeadingChar, if_pos hc]

theorem noDoubleDash_take : ∀ (n : Nat) {l : List Char},
    noDoubleDash l = true → noDoubleDash (l.take n) = true
  | 0, _, _ => rfl
  | _ + 1, [], _ => rfl
  | n + 1, c :: rest, h => by
    have ht := noDoubleDash_take n (noDoubleDash_tail h)
    cases rest with
    | nil => cases n <;> rfl
    | cons c2 r =>
      cases n with
      | zero => rfl
      | succ m =>
        simp only [noDoubleDash, Bool.and_eq_true] at h
        simp only [List.take, noDoubleDash, Bool.and_eq_true]
        refine ⟨h.1, ?_⟩
        have := noDoubleDash_take (m + 1) (l := c2 :: r) h.2
        simpa using this

/-! ## Character-class bridges -/

theorem isLowerAlnumChar_of {c : Char} (hp : pyIsAlnum c = true)
    (hi : isIndexChar c = true) : isLowerAlnumChar c = true := by
  simp only [pyIsAlnum, isIndexChar, isLowerAlnumChar, Bool.or_eq_true,
    Bool.and_eq_true, decide_eq_true_eq, beq_iff_eq] at *
  omega

theorem beq_dash_eq_false_of_isLowerAlnumChar {c : Char}
    (h : isLowerAlnumChar c = true) : (c == '-') = false := by
  rw [beq_eq_false_iff_ne]
  intro h'
  subst h'
  exact absurd h (by decide)

theorem pyIsAlnum_of_isLowerAlnumChar {c : Char}
    (h : isLowerAlnumChar c = true) : pyIsAlnum c = true := by
  simp only [isLowerAlnumChar, pyIsAlnum, Bool.or_eq_true, Bool.and_eq_true,
    decide_eq_true_eq] at *
  omega

theorem isIndexChar_of_isLowerAlnumChar {c : Char}
    (h : isLowerAlnumChar c = true) : isIndexChar c = true := by
  simp only [isLowerAlnumChar, isIndexChar, Bool.or_eq_true, Bool.and_eq_true,
    decide_eq_true_eq, beq_iff_eq] at *
  omega

theorem idxPattern_take {l : List Char} {n : Nat} (h : idxPattern l = true)
    (hn : 1 ≤ n) : idxPattern (l.take n) = true := by
  cases l with
  | nil => exact absurd h (by decide)
  | cons c t =>
    obtain ⟨m, rfl⟩ : ∃ m, n = m + 1 := ⟨n - 1, by omega⟩
    simp only [List.take, idxPattern, Bool.and_eq_true, List.all_eq_true]
      at h ⊢
    exact ⟨h.1, fun d hd => h.2 d (List.take_subset m t hd)⟩

/-! ## Output characterisation of `sanitize_index_name` -/

theorem sanitize_index_name_spec (s : String) :
    3 ≤ (sanitize_index_name s).data.length ∧
    (sanitize_index_name s).data.length ≤ 45 ∧
    idxPattern (sanitize_index_name s).data = true ∧
    noDoubleDash (sanitize_index_name s).data = true := by
  set str := (s.data.map Char.toLower).filter isIndexChar with hstr
  have hall : ∀ c ∈ str, isIndexChar c = true :=
    fun c hc => List.of_mem_filter hc
  set collapsed := squeezeDashes str with hcol
  have hcol_all : ∀ c ∈ collapsed, isIndexChar c = true :=
    fun c hc => hall c (mem_squeezeDashes hc)
  have hcol_ndd : noDoubleDash collapsed = true := noDoubleDash_squeezeDashes str
  set fronted := fixLeadingChar collapsed with hfr
  have hfr_all : ∀ c ∈ fronted, isIndexChar c = true := by
    intro c hc
    rcases mem_fixLeadingChar hc with h | rfl
    · exact hcol_all c h
    · decide
  have hfr_ndd : noDoubleDash fronted = true :=
    noDoubleDash_fixLeadingChar hcol_ndd
  have hfr_pat : fronted = [] ∨ idxPattern fronted = true := by
    by_cases hne : collapsed = []
    · left
      rw [hfr, hne]
      rfl
    · right
      obtain ⟨c, t, hft, hc, -, -⟩ := fixLeadingChar_head hne
      rw [hfr, hft]
      have hcl : isLowerAlnumChar c = true := by
        refine isLowerAlnumChar_of hc (hfr_all c ?_)
        rw [hfr, hft]
        exact List.mem_cons_self _ _
      simp only [idxPattern, Bool.and_eq_true, List.all_eq_true]
      refine ⟨hcl, fun d hd => hfr_all d ?_⟩
      rw [hfr, hft]
      exact List.mem_cons_of_mem _ hd
  set padded :=
    if fronted.length < 3 then 'i' :: 'd' :: 'x' :: '-' :: fronted else fronted
    with hpd
  have hpd_len : 3 ≤ padded.length := by
    rw [hpd]
    split
    · simp only [List.length_cons]
      omega
    · omega
  have hpd_pat : idxPattern padded = true := by
    rw [hpd]
    split
    · simp only [idxPattern, Bool.and_eq_true, List.all_eq_true]
      refine ⟨by decide, fun d hd => ?_⟩
      simp only [List.mem_cons] at hd
      rcases hd with rfl | rfl | rfl | h
      · decide
      · decide
      · decide
      · exact hfr_all d h
    · next hnlt =>
      rcases hfr_pat with hemp | hp
      · rw [hemp] at hnlt
        simp at hnlt
      · exact hp
  have hpd_ndd : noDoubleDash padded = true := by
    rw [hpd]
    split
    · rcases hfr_pat with hemp | hp
      · rw [hemp]
        decide
      · cases hfronted : fronted with
        | nil => decide
        | cons c t =>
          rw [hfronted] at hp hfr_ndd
          simp only [idxPattern, Bool.and_eq_true] at hp
          simp only [noDoubleDash, Bool.and_eq_true]
          refine ⟨by simp, by simp, by simp, ?_, hfr_ndd⟩
          rw [beq_dash_eq_false_of_isLowerAlnumChar hp.1]
          simp
    · exact hfr_ndd
  have hfinal : (sanitize_index_name s).data =
      (if padded.length > 45 then padded.take 45 else padded) := rfl
  rw [hfinal]
  split
  · refine ⟨?_, ?_, idxPattern_take hpd_pat (by omega),
      noDoubleDash_take 45 hpd_ndd⟩
    · simp only [List.length_take]
      omega
    · simp only [List.length_take]
      omega
  · exact ⟨hpd_len, by omega, hpd_pat, hpd_ndd⟩

theorem sanitize_namespace_spec (s : String) :
    (sanitize_namespace s).data.length ≤ 64 ∧
    ∀ c ∈ (sanitize_namespace s).data, isNamespaceChar c = true := by
  set replaced := s.data.map (fun c => if isNamespaceChar c then c else '_')
    with hrep
  have hall : ∀ c ∈ replaced, isNamespaceChar c = true := by
    intro c hc
    rw [hrep] at hc
    obtain ⟨d, -, rfl⟩ := List.mem_map.mp hc
    by_cases h : isNamespaceChar d
    · rw [if_pos h]
      exact h
    · rw [if_neg h]
      decide
  have hfinal : (sanitize_namespace s).data =
      (if replaced.length > 64 then replaced.take 64 else replaced) := rfl
  rw [hfinal]
  split
  · refine ⟨by simp [List.length_take], fun c hc => hall c ?_⟩
    exact List.take_subset _ _ hc
  · exact ⟨by omega, hall⟩

theorem sanitize_index_name_chars (s : String) :
    ∀ c ∈ (sanitize_index_name s).data, isIndexChar c = true := by
  intro c hc
  obtain ⟨-, -, hpat, -⟩ := sanitize_index_name_spec s
  cases hdata : (sanitize_index_name s).data with
  | nil =>
    rw [hdata] at hc
    simp at hc
  | cons c0 rest =>
    rw [hdata] at hc hpat
    simp only [idxPattern, Bool.and_eq_true, List.all_eq_true] at hpat
    rcases List.mem_cons.mp hc with rfl | h
    · exact isIndexChar_of_isLowerAlnumChar hpat.1
    · exact hpat.2 c h

/-! ## Fixpoint lemmas for the sanitizers -/

theorem sanitize_index_name_fixed (t : String)
    (hall : ∀ c ∈ t.data, isIndexChar c = true)
    (hndd : noDoubleDash t.data = true)
    (hpat : idxPattern t.data = true)
    (h3 : 3 ≤ t.data.length) (h45 : t.data.length ≤ 45) :
    sanitize_index_name t = t := by
  set str := (t.data.map Char.toLower).filter isIndexChar with hstr
  set collapsed := squeezeDashes str with hcol
  set fronted := fixLeadingChar collapsed with hfr
  set padded :=
    if fronted.length < 3 then 'i' :: 'd' :: 'x' :: '-' :: fronted else fronted
    with hpd
  have hfinal : (sanitize_index_name t).data =
      (if padded.length > 45 then padded.take 45 else padded) := rfl
  have h1 : str = t.data := by
    rw [hstr,
      map_eq_self_of_mem fun c hc => toLower_eq_self_of_isIndexChar (hall c hc)]
    exact List.filter_eq_self.mpr hall
  have h2 : collapsed = t.data := by
    rw [hcol, h1]
    exact squeezeDashes_eq_self hndd
  have h3' : fronted = t.data := by
    rw [hfr, h2]
    apply fixLeadingChar_eq_self
    cases hdata : t.data with
    | nil => exact Or.inl rfl
    | cons c0 rest =>
      rw [hdata] at hpat
      simp only [idxPattern, Bool.and_eq_true] at hpat
      exact Or.inr ⟨c0, rest, rfl, pyIsAlnum_of_isLowerAlnumChar hpat.1⟩
  have h4 : padded = t.data := by
    rw [hpd, h3', if_neg (by omega)]
  apply String.ext
  rw [hfinal, h4, if_neg (by omega)]

theorem sanitize_namespace_fixed (t : String)
    (hall : ∀ c ∈ t.data, isNamespaceChar c = true)
    (h64 : t.data.length ≤ 64) :
    sanitize_namespace t = t := by
  set replaced := t.data.map (fun c => if isNamespaceChar c then c else '_')
    with hrep
  have h1 : replaced = t.data := by
    rw [hrep]
    exact map_eq_self_of_mem fun c hc => if_pos (hall c hc)
  have hfinal : (sanitize_namespace t).data =
      (if replaced.length > 64 then replaced.take 64 else replaced) := rfl
  apply String.ext
  rw [hfinal, h1, if_neg (by omega)]

/-! ## Claim C4 -/

/-- C4: for every input string, `sanitize_index_name` returns at most 45
characters, all of them fixed under lowercasing, and the result matches
`[a-z0-9][a-z0-9-]*` (in particular it is non-empty and starts with a
lowercase alphanumeric character); `sanitize_namespace` returns at most 64
characters, all within `[A-Za-z0-9_-]`. -/
theorem C4_sanitization_bounds (s : String) :
    (sanitize_index_name s).length ≤ 45 ∧
    (∀ c ∈ (sanitize_index_name s).data, c.toLower = c) ∧
    idxPattern (sanitize_index_name s).data = true ∧
    (sanitize_namespace s).length ≤ 64 ∧
    (∀ c ∈ (sanitize_namespace s).data, isNamespaceChar c = true) := by
  obtain ⟨-, h45, hpat, -⟩ := sanitize_index_name_spec s
  obtain ⟨h64, hns⟩ := sanitize_namespace_spec s
  exact ⟨h45, fun c hc =>
      toLower_eq_self_of_isIndexChar (sanitize_index_name_chars s c hc),
    hpat, h64, hns⟩

/-! ## Claim C9 -/

/-- C9: both sanitizers are idempotent — re-sanitizing an already sanitized
index name or namespace changes nothing. -/
theorem C9_sanitizers_idempotent (s : String) :
    sanitize_index_name (sanitize_index_name s) = sanitize_index_name s ∧
    sanitize_namespace (sanitize_namespace s) = sanitize_namespace s := by
  constructor
  · obtain ⟨h3, h45, hpat, hndd⟩ := sanitize_index_name_spec s
    exact sanitize_index_name_fixed _ (sanitize_index_name_chars s) hndd hpat
      h3 h45
  · obtain ⟨h64, hall⟩ := sanitize_namespace_spec s
    exact sanitize_namespace_fixed _ hall h64

/-! ## Claim C8 -/

theorem pdf_foldl_go (ps : List String) : ∀ p : String,
    List.foldl (fun t q => t ++ q ++ "\n\n") (p ++ "\n\n") ps =
      String.intercalate.go p "\n\n" ps ++ "\n\n" := by
  induction ps with
  | nil =>
    intro p
    rfl
  | cons a as ih =>
    intro p
    rw [List.foldl_cons, String.intercalate.go]
    exact ih (p ++ "\n\n" ++ a)

/-- C8 counterexample: a one-page PDF refutes the claim that the extracted
text is the per-page texts with `"\n\n"` only between consecutive pages —
`_extract_from_pdf` also appends `"\n\n"` after the final page. -/
theorem C8_counterexample :
    extract_from_pdf ["page one"] = "page one\n\n" ∧
    String.intercalate "\n\n" ["page one"] = "page one" ∧
    extract_from_pdf ["page one"] ≠ String.intercalate "\n\n" ["page one"] := by
  refine ⟨rfl, rfl, ?_⟩
  decide

/-- C8 (amended): for every PDF, the extracted text is the page texts in page
order, each page's text (the empty string for an image-only page) followed by
a `"\n\n"` separator — equivalently, the pages joined by `"\n\n"` with one
trailing `"\n\n"` after the last page; an empty PDF yields the empty
string. -/
theorem C8_pdf_page_concatenation (pages : List String) :
    extract_from_pdf pages =
      (if pages.isEmpty then ""
       else String.intercalate "\n\n" pages ++ "\n\n") := by
  cases pages with
  | nil => rfl
  | cons p ps =>
    rw [if_neg (by simp)]
    show List.foldl (fun t q => t ++ q ++ "\n\n") "" (p :: ps) =
      String.intercalate "\n\n" (p :: ps) ++ "\n\n"
    rw [List.foldl_cons, String.empty_append]
    rw [pdf_foldl_go ps p]
    rfl

/-! ## Claim C1 -/

/-- C1 divergence witness: ingestion sanitizes the namespace
(`sanitize_namespace` maps `.` to `_`) but retrieval uses the raw namespace,
so the two derivations disagree on `(owner_id, conversation_id) = (1, "a.b")`:
ingestion indexes under namespace `1-a_b` while retrieval queries `1-a.b`. -/
theorem C1_ingestion_retrieval_divergence :
    ingestionResolve 1 "a.b" = ("chatwithdocs", "1-a_b") ∧
    retrievalResolve 1 "a.b" = ("chatwithdocs", "1-a.b") ∧
    ingestionResolve 1 "a.b" ≠ retrievalResolve 1 "a.b" := by
  decide

/-! ## Claim C2 -/

/-- C2 divergence witness: with a vector backend whose `list_indexes()` is
empty (no document ever ingested), `retrieve_documents` does not return an
empty fragment list — it raises `ValueError("Índice chatwithdocs não
encontrado")`. -/
theorem C2_retrieval_raises_on_missing_index :
    retrieve_documents ⟨[], fun _ _ _ _ => []⟩ "dosage instructions" 5
        (some "t1") (some 1) =
      Except.error "Índice chatwithdocs não encontrado" := by
  rfl

/-! ## Claim C7 -/

/-- C7 divergence witness: on conversation `thread_id = "t1"` of user `1`
holding one processed document, `_delete_conversation_internal` does issue
exactly one namespace sweep, after the per-document cleanup — but the sweep
targets `(index, namespace) = ("user1", "t1")` (the per-user index scheme),
whereas ingestion indexed this conversation's documents under
`("chatwithdocs", "1-t1")`, so the sweep is not a superset of per-document
deletion. -/
theorem C7_conversation_sweep_targets_wrong_pair :
    delete_conversation_events 1 "t1" [⟨1, "u/1/t1/doc.pdf", true⟩] =
      [TeardownEvent.s3_delete "u/1/t1/doc.pdf",
       TeardownEvent.pinecone_doc_delete 1,
       TeardownEvent.pinecone_namespace_delete "user1" "t1",
       TeardownEvent.db_delete_conversation] ∧
    ((delete_conversation_events 1 "t1" [⟨1, "u/1/t1/doc.pdf", true⟩]).filter
        isNamespaceSweep).length = 1 ∧
    ingestionResolve 1 "t1" = ("chatwithdocs", "1-t1") ∧
    ("user1", "t1") ≠ ingestionResolve 1 "t1" := by
  decide

/-! ## Batch-loop lemmas -/

theorem processBatch_index_status (ns : String) (docId total done : Nat)
    (st : DocState) (batch : List Chunk) :
    (processBatch ns docId total done st batch).index_status =
      st.index_status := rfl

theorem processBatch_rows (ns : String) (docId total done : Nat)
    (st : DocState) (batch : List Chunk) :
    (processBatch ns docId total done st batch).rows =
      st.rows ++ batch.map (chunkRowOf ns docId) := rfl

theorem runBatchesK_index_status (ns : String) (docId total : Nat) :
    ∀ (k done : Nat) (st : DocState) (chunks : List Chunk),
    (runBatchesK ns docId total k done st chunks).index_status =
      st.index_status := by
  intro k
  induction k with
  | zero => intro done st chunks; rfl
  | succ k ih =>
    intro done st chunks
    cases chunks with
    | nil => rfl
    | cons c rest =>
      rw [runBatchesK, ih, processBatch_index_status]

theorem runBatchesK_rows (ns : String) (docId total : Nat) :
    ∀ (k done : Nat) (st : DocState) (chunks : List Chunk),
    (runBatchesK ns docId total k done st chunks).rows =
      st.rows ++ (chunks.take (k * BATCH_SIZE)).map (chunkRowOf ns docId) := by
  intro k
  induction k with
  | zero =>
    intro done st chunks
    simp [runBatchesK]
  | succ k ih =>
    intro done st chunks
    cases chunks with
    | nil => simp [runBatchesK]
    | cons c rest =>
      rw [runBatchesK, ih, processBatch_rows]
      have harith : (k + 1) * BATCH_SIZE = BATCH_SIZE + k * BATCH_SIZE := by
        ring
      rw [harith, List.take_add, List.map_append, List.append_assoc]

theorem create_chunks_length (pieces : List String) :
    (create_chunks pieces).length = pieces.length := by
  simp [create_chunks]

theorem create_chunks_indexes (pieces : List String) :
    (create_chunks pieces).map (fun c => c.chunkIndex) =
      List.range pieces.length := by
  rw [create_chunks, List.map_map]
  exact List.enum_map_fst pieces

/-! ## Claim C3 -/

/-- C3: starting from a document with no chunk rows, if `ingest_document` is
interrupted after the batch loop has committed `k` of its `n` batches
(`BATCH_SIZE = 10`), the relational store holds exactly the first
`k * BATCH_SIZE` chunks — as rows listed in order, with `chunk_index` running
over `0..k*BATCH_SIZE-1` — and the document's `index_status` is still
`processing`, not `completed`. -/
theorem C3_batch_checkpoint_invariant (ns : String) (docId : Nat)
    (pieces : List String) (doc0 : DocState) (k : Nat)
    (h0 : doc0.rows = [])
    (hk : k < numBatches (create_chunks pieces).length) :
    (runBatchesK ns docId (create_chunks pieces).length k 0
        { doc0 with index_status := .processing }
        (create_chunks pieces)).rows =
      ((create_chunks pieces).take (k * BATCH_SIZE)).map
        (chunkRowOf ns docId) ∧
    (runBatchesK ns docId (create_chunks pieces).length k 0
        { doc0 with index_status := .processing }
        (create_chunks pieces)).rows.length = k * BATCH_SIZE ∧
    (runBatchesK ns docId (create_chunks pieces).length k 0
        { doc0 with index_status := .processing }
        (create_chunks pieces)).rows.map (fun r => r.chunk_index) =
      List.range (k * BATCH_SIZE) ∧
    (runBatchesK ns docId (create_chunks pieces).length k 0
        { doc0 with index_status := .processing }
        (create_chunks pieces)).index_status = DocStatus.processing ∧
    (runBatchesK ns docId (create_chunks pieces).length k 0
        { doc0 with index_status := .processing }
        (create_chunks pieces)).index_status ≠ DocStatus.completed := by
  have hlen : (create_chunks pieces).length = pieces.length :=
    create_chunks_length pieces
  have hkb : k * BATCH_SIZE < pieces.length := by
    rw [hlen] at hk
    simp only [numBatches, BATCH_SIZE] at hk ⊢
    omega
  simp only [h0]
  set st0 : DocState :=
    { doc0 with index_status := DocStatus.processing, rows := [] } with hst0
  have hrows := runBatchesK_rows ns docId (create_chunks pieces).length k 0
    st0 (create_chunks pieces)
  rw [show st0.rows = [] from rfl, List.nil_append] at hrows
  have hmapidx : (runBatchesK ns docId (create_chunks pieces).length k 0
      st0 (create_chunks pieces)).rows.map (fun r => r.chunk_index) =
      List.range (k * BATCH_SIZE) := by
    rw [hrows, List.map_map]
    have hcomp : ((fun r : ChunkRow => r.chunk_index) ∘ chunkRowOf ns docId) =
        fun c : Chunk => c.chunkIndex := rfl
    rw [hcomp, List.map_take, create_chunks_indexes, List.take_range]
    congr 1
    omega
  refine ⟨hrows, ?_, hmapidx, ?_, ?_⟩
  · have := congrArg List.length hmapidx
    simpa using this
  · exact runBatchesK_index_status ..
  · rw [runBatchesK_index_status]
    simp

/-- C3 witness: eleven fragments form two batches; interrupting after the
first batch commit leaves exactly the ten first chunks as rows and the
document `processing`. -/
theorem C3_witness :
    (⟨DocStatus.pending, false, [], none, none, none, none, none, none, []⟩ :
        DocState).rows = [] ∧
    1 < numBatches (create_chunks
      ["a","b","c","d","e","f","g","h","i","j","k"]).length ∧
    ((runBatchesK "1-t1" 7 (create_chunks
        ["a","b","c","d","e","f","g","h","i","j","k"]).length 1 0
        { (⟨DocStatus.pending, false, [], none, none, none, none, none, none,
            []⟩ : DocState) with index_status := .processing }
        (create_chunks ["a","b","c","d","e","f","g","h","i","j","k"])).rows =
      ((create_chunks ["a","b","c","d","e","f","g","h","i","j","k"]).take
        (1 * BATCH_SIZE)).map (chunkRowOf "1-t1" 7) ∧
    (runBatchesK "1-t1" 7 (create_chunks
        ["a","b","c","d","e","f","g","h","i","j","k"]).length 1 0
        { (⟨DocStatus.pending, false, [], none, none, none, none, none, none,
            []⟩ : DocState) with index_status := .processing }
        (create_chunks
          ["a","b","c","d","e","f","g","h","i","j","k"])).rows.length =
      1 * BATCH_SIZE ∧
    (runBatchesK "1-t1" 7 (create_chunks
        ["a","b","c","d","e","f","g","h","i","j","k"]).length 1 0
        { (⟨DocStatus.pending, false, [], none, none, none, none, none, none,
            []⟩ : DocState) with index_status := .processing }
        (create_chunks
          ["a","b","c","d","e","f","g","h","i","j","k"])).rows.map
        (fun r => r.chunk_index) = List.range (1 * BATCH_SIZE) ∧
    (runBatchesK "1-t1" 7 (create_chunks
        ["a","b","c","d","e","f","g","h","i","j","k"]).length 1 0
        { (⟨DocStatus.pending, false, [], none, none, none, none, none, none,
            []⟩ : DocState) with index_status := .processing }
        (create_chunks
          ["a","b","c","d","e","f","g","h","i","j","k"])).index_status =
      DocStatus.processing ∧
    (runBatchesK "1-t1" 7 (create_chunks
        ["a","b","c","d","e","f","g","h","i","j","k"]).length 1 0
        { (⟨DocStatus.pending, false, [], none, none, none, none, none, none,
            []⟩ : DocState) with index_status := .processing }
        (create_chunks
          ["a","b","c","d","e","f","g","h","i","j","k"])).index_status ≠
      DocStatus.completed) :=
  ⟨rfl, by decide,
    C3_batch_checkpoint_invariant "1-t1" 7
      ["a","b","c","d","e","f","g","h","i","j","k"]
      ⟨DocStatus.pending, false, [], none, none, none, none, none, none, []⟩
      1 rfl (by decide)⟩

/-! ## Claim C6 -/

/-- C6: for every existing document, if any step of `ingest_document` after
the transition to `processing` raises (missing conversation, extraction or
chunking failure, index creation failure, or a batch upsert failure), the
committed document state has `index_status = failed` with the error message
recorded under `doc_metadata["error"]`, and the exception is re-raised to the
caller (the run's second component is that same error). -/
theorem C6_ingest_failure_recorded (env : IngestEnv) (docId userId : Nat)
    (threadId : String) (doc0 : DocState) (e : String)
    (h : (ingest_document env docId userId threadId doc0).2 =
      Except.error e) :
    (ingest_document env docId userId threadId doc0).1.index_status =
        DocStatus.failed ∧
      (ingest_document env docId userId threadId doc0).1.meta_error =
        some e ∧
      (ingest_document env docId userId threadId doc0).2 =
        Except.error e := by
  revert h
  simp only [ingest_document]
  split
  · simp only [ingestFail, Except.error.injEq]
    intro h
    subst h
    simp
  · split
    · simp only [ingestFail, Except.error.injEq]
      intro h
      subst h
      simp
    · split
      · simp only [ingestFail, Except.error.injEq]
        intro h
        subst h
        simp
      · split
        · simp only [ingestFail, Except.error.injEq]
          intro h
          subst h
          simp
        · intro h
          exact absurd h (by simp)

/-- C6 witness: a run whose text extraction raises `"corrupt PDF"` ends with
the document `failed`, the message recorded, and the exception re-raised. -/
theorem C6_witness :
    (ingest_document ⟨true, Except.error "corrupt PDF", none, fun _ => none⟩
        7 1 "t1"
        ⟨DocStatus.pending, false, [], none, none, none, none, none, none,
          []⟩).2 = Except.error "corrupt PDF" ∧
    ((ingest_document ⟨true, Except.error "corrupt PDF", none, fun _ => none⟩
        7 1 "t1"
        ⟨DocStatus.pending, false, [], none, none, none, none, none, none,
          []⟩).1.index_status = DocStatus.failed ∧
      (ingest_document ⟨true, Except.error "corrupt PDF", none,
          fun _ => none⟩ 7 1 "t1"
        ⟨DocStatus.pending, false, [], none, none, none, none, none, none,
          []⟩).1.meta_error = some "corrupt PDF" ∧
      (ingest_document ⟨true, Except.error "corrupt PDF", none,
          fun _ => none⟩ 7 1 "t1"
        ⟨DocStatus.pending, false, [], none, none, none, none, none, none,
          []⟩).2 = Except.error "corrupt PDF") :=
  ⟨rfl,
    C6_ingest_failure_recorded ⟨true, Except.error "corrupt PDF", none,
        fun _ => none⟩ 7 1 "t1"
      ⟨DocStatus.pending, false, [], none, none, none, none, none, none, []⟩
      "corrupt PDF" rfl⟩

/-! ## Successful-run lemmas -/

theorem ingestLoopF_ok_rows (upsertErr : Nat → Option String) (ns : String)
    (docId total : Nat) :
    ∀ (fuel bi done : Nat) (st : DocState) (chunks : List Chunk),
    chunks.length ≤ fuel →
    (ingestLoopF upsertErr ns docId total fuel bi done st chunks).2 = none →
    (ingestLoopF upsertErr ns docId total fuel bi done st chunks).1.rows =
      st.rows ++ chunks.map (chunkRowOf ns docId) := by
  intro fuel
  induction fuel with
  | zero =>
    intro bi done st chunks hfuel _
    have : chunks = [] := List.eq_nil_of_length_eq_zero (by omega)
    subst this
    simp [ingestLoopF]
  | succ f ih =>
    intro bi done st chunks hfuel hok
    cases chunks with
    | nil => simp [ingestLoopF]
    | cons c rest =>
      rw [ingestLoopF] at hok ⊢
      cases hup : upsertErr bi with
      | some e =>
        rw [hup] at hok
        simp at hok
      | none =>
        rw [hup] at hok
        have hok2 : (ingestLoopF upsertErr ns docId total f (bi + 1)
            (done + ((c :: rest).take BATCH_SIZE).length)
            (processBatch ns docId total done st ((c :: rest).take BATCH_SIZE))
            ((c :: rest).drop BATCH_SIZE)).2 = none := hok
        have hlen : ((c :: rest).drop BATCH_SIZE).length ≤ f := by
          simp only [List.length_drop, List.length_cons] at *
          simp only [BATCH_SIZE]
          omega
        show (ingestLoopF upsertErr ns docId total f (bi + 1)
            (done + ((c :: rest).take BATCH_SIZE).length)
            (processBatch ns docId total done st ((c :: rest).take BATCH_SIZE))
            ((c :: rest).drop BATCH_SIZE)).1.rows =
          st.rows ++ (c :: rest).map (chunkRowOf ns docId)
        rw [ih _ _ _ _ hlen hok2, processBatch_rows, List.append_assoc,
          ← List.map_append, List.take_append_drop]

theorem vectorId_injective (ns : String) (docId : Nat) :
    Function.Injective (vectorId ns docId) := by
  intro i j h
  have h' : (ns ++ "_" ++ pyStr docId ++ "_") ++ pyStr i =
      (ns ++ "_" ++ pyStr docId ++ "_") ++ pyStr j := h
  have hd := congrArg String.data h'
  rw [String.data_append, String.data_append] at hd
  exact decDigits_injective (List.append_cancel_left hd)

/-! ## Claim C5 -/

/-- C5: for every run of `ingest_document` that starts with no chunk rows for
the document and returns successfully, the persisted `vector_id`s are, in row
order, exactly `{namespace}_{document_id}_{chunk_index}` for chunk indices
`0..n-1` with the document's resolved (sanitized) namespace, every row's
`vector_id` equals that pattern at its own `chunk_index`, and the ids are
pairwise distinct. -/
theorem C5_vector_ids_unique (env : IngestEnv) (docId userId : Nat)
    (threadId : String) (doc0 : DocState) (res : IngestResult)
    (h0 : doc0.rows = [])
    (h : (ingest_document env docId userId threadId doc0).2 =
      Except.ok res) :
    (ingest_document env docId userId threadId doc0).1.rows.map
        (fun r => r.vector_id) =
      (List.range res.chunks_processed).map
        (vectorId (sanitize_namespace (ingestionRawNamespace userId threadId))
          docId) ∧
    (∀ r ∈ (ingest_document env docId userId threadId doc0).1.rows,
      r.vector_id =
        vectorId (sanitize_namespace (ingestionRawNamespace userId threadId))
          docId r.chunk_index) ∧
    (ingest_document env docId userId threadId doc0).1.rows.Pairwise
      (fun a b => a.vector_id ≠ b.vector_id) := by
  revert h
  simp only [ingest_document]
  split
  · simp [ingestFail]
  · split
    · simp [ingestFail]
    · rename_i pieces hpr
      split
      · simp [ingestFail]
      · split
        · simp [ingestFail]
        · rename_i st heq
          intro h
          simp only [Except.ok.injEq] at h
          subst h
          have hok : (ingestLoopF env.upsert_error
              (sanitize_namespace (ingestionRawNamespace userId threadId))
              docId (create_chunks pieces).length
              (create_chunks pieces).length 0 0
              { doc0 with index_status := DocStatus.processing }
              (create_chunks pieces)).2 = none := by
            rw [heq]
          have hrows := ingestLoopF_ok_rows env.upsert_error
            (sanitize_namespace (ingestionRawNamespace userId threadId))
            docId (create_chunks pieces).length
            (create_chunks pieces).length 0 0
            { doc0 with index_status := DocStatus.processing }
            (create_chunks pieces) (le_refl _) hok
          rw [heq] at hrows
          have hdoc1 : ({ doc0 with
              index_status := DocStatus.processing } : DocState).rows =
              [] := h0
          rw [hdoc1, List.nil_append] at hrows
          have hids : st.rows.map (fun r => r.vector_id) =
              (List.range (create_chunks pieces).length).map
                (vectorId (sanitize_namespace
                  (ingestionRawNamespace userId threadId)) docId) := by
            rw [hrows, List.map_map]
            have hcomp : ((fun r : ChunkRow => r.vector_id) ∘
                chunkRowOf (sanitize_namespace
                  (ingestionRawNamespace userId threadId)) docId) =
                (vectorId (sanitize_namespace
                  (ingestionRawNamespace userId threadId)) docId) ∘
                  (fun c : Chunk => c.chunkIndex) := rfl
            rw [hcomp, ← List.map_map, create_chunks_indexes,
              ← create_chunks_length pieces]
          refine ⟨hids, ?_, ?_⟩
          · intro r hr
            rw [hrows] at hr
            obtain ⟨c, -, rfl⟩ := List.mem_map.mp hr
            rfl
          · have hnodup : (st.rows.map (fun r => r.vector_id)).Nodup := by
              rw [hids]
              exact (List.nodup_range _).map
                (vectorId_injective
                  (sanitize_namespace (ingestionRawNamespace userId threadId))
                  docId)
            exact (List.pairwise_map).mp hnodup

/-- C5 witness: a successful three-chunk ingestion run for document 7 of user
1 in thread `t1` persists pairwise-distinct vector ids of the required
shape. -/
theorem C5_witness :
    (⟨DocStatus.pending, false, [], none, none, none, none, none, none, []⟩ :
        DocState).rows = [] ∧
    (ingest_document ⟨true, Except.ok ["alpha", "beta", "gamma"], none,
        fun _ => none⟩ 7 1 "t1"
      ⟨DocStatus.pending, false, [], none, none, none, none, none, none,
        []⟩).2 = Except.ok ⟨7, 3, "chatwithdocs", "1-t1"⟩ ∧
    ((ingest_document ⟨true, Except.ok ["alpha", "beta", "gamma"], none,
          fun _ => none⟩ 7 1 "t1"
        ⟨DocStatus.pending, false, [], none, none, none, none, none, none,
          []⟩).1.rows.map (fun r => r.vector_id) =
      (List.range (⟨7, 3, "chatwithdocs", "1-t1"⟩ :
          IngestResult).chunks_processed).map
        (vectorId (sanitize_namespace (ingestionRawNamespace 1 "t1")) 7) ∧
    (∀ r ∈ (ingest_document ⟨true, Except.ok ["alpha", "beta", "gamma"],
          none, fun _ => none⟩ 7 1 "t1"
        ⟨DocStatus.pending, false, [], none, none, none, none, none, none,
          []⟩).1.rows,
      r.vector_id =
        vectorId (sanitize_namespace (ingestionRawNamespace 1 "t1")) 7
          r.chunk_index) ∧
    (ingest_document ⟨true, Except.ok ["alpha", "beta", "gamma"], none,
        fun _ => none⟩ 7 1 "t1"
      ⟨DocStatus.pending, false, [], none, none, none, none, none, none,
        []⟩).1.rows.Pairwise (fun a b => a.vector_id ≠ b.vector_id)) :=
  ⟨rfl, rfl,
    C5_vector_ids_unique
      ⟨true, Except.ok ["alpha", "beta", "gamma"], none, fun _ => none⟩
      7 1 "t1"
      ⟨DocStatus.pending, false, [], none, none, none, none, none, none, []⟩
      ⟨7, 3, "chatwithdocs", "1-t1"⟩ rfl rfl⟩

/-! ## Claim C10 -/

/-- C10: when `delete_document_from_index` short-circuits with a `warning`
result because the resolved target index is absent from the backend's index
list, the document's relational state is left entirely unchanged — the whole
state, and in particular `is_processed`, `index_status`, every recognised
`doc_metadata` key, the custom metadata, and the `DocumentChunk` rows, are
exactly as before the call. -/
theorem C10_delete_warning_preserves_state (env : DeleteEnv)
    (docId userId : Nat) (threadId : String) (st : DocState)
    (idxs : List String)
    (hlist : env.list_indexes = some idxs)
    (habs : (deletionResolvedPair userId threadId st).1 ∉ idxs) :
    (delete_document_from_index env docId userId threadId st).2.status =
        "warning" ∧
    (delete_document_from_index env docId userId threadId st).1 = st ∧
    (delete_document_from_index env docId userId threadId st).1.is_processed =
      st.is_processed ∧
    (delete_document_from_index env docId userId threadId st).1.index_status =
      st.index_status ∧
    (delete_document_from_index env docId userId threadId st).1.rows =
      st.rows ∧
    (delete_document_from_index env docId userId threadId
        st).1.meta_pinecone_index = st.meta_pinecone_index ∧
    (delete_document_from_index env docId userId threadId
        st).1.meta_pinecone_namespace = st.meta_pinecone_namespace ∧
    (delete_document_from_index env docId userId threadId
        st).1.meta_indexing_progress = st.meta_indexing_progress ∧
    (delete_document_from_index env docId userId threadId
        st).1.meta_chunks_indexed = st.meta_chunks_indexed ∧
    (delete_document_from_index env docId userId threadId
        st).1.meta_total_chunks = st.meta_total_chunks ∧
    (delete_document_from_index env docId userId threadId st).1.meta_error =
      st.meta_error ∧
    (delete_document_from_index env docId userId threadId st).1.meta_other =
      st.meta_other := by
  have hc : idxs.contains (deletionResolvedPair userId threadId st).1 =
      false := by
    simpa using habs
  simp [delete_document_from_index, hlist, hc, habs]

/-- C10 witness: deleting document 7 of user 1 (thread `t1`) against a
backend with no indexes returns a warning and leaves the blank document state
untouched. -/
theorem C10_witness :
    (⟨some [], true, true, none⟩ : DeleteEnv).list_indexes = some [] ∧
    (deletionResolvedPair 1 "t1"
      ⟨DocStatus.completed, true, [], some "chatwithdocs", some "1-t1",
        some 100, some 3, some 3, none, []⟩).1 ∉ ([] : List String) ∧
    ((delete_document_from_index ⟨some [], true, true, none⟩ 7 1 "t1"
        ⟨DocStatus.completed, true, [], some "chatwithdocs", some "1-t1",
          some 100, some 3, some 3, none, []⟩).2.status = "warning" ∧
    (delete_document_from_index ⟨some [], true, true, none⟩ 7 1 "t1"
        ⟨DocStatus.completed, true, [], some "chatwithdocs", some "1-t1",
          some 100, some 3, some 3, none, []⟩).1 =
      ⟨DocStatus.completed, true, [], some "chatwithdocs", some "1-t1",
        some 100, some 3, some 3, none, []⟩) :=
  ⟨rfl, by simp,
    ⟨(C10_delete_warning_preserves_state ⟨some [], true, true, none⟩ 7 1 "t1"
        ⟨DocStatus.completed, true, [], some "chatwithdocs", some "1-t1",
          some 100, some 3, some 3, none, []⟩ [] rfl (by simp)).1,
      (C10_delete_warning_preserves_state ⟨some [], true, true, none⟩ 7 1 "t1"
        ⟨DocStatus.completed, true, [], some "chatwithdocs", some "1-t1",
          some 100, some 3, some 3, none, []⟩ [] rfl (by simp)).2.1⟩⟩
